import Mathlib

/-!
Shallow embedding of the identity-resolver and feed-enrichment logic of the
`launchops_backend` repository.

The embedded functions follow the settled variants the specification was
written from:

* `toHandle`, `displayNameFromUser`, `upsertUserProfile` — the resolver in
  `src/unnamed/part_005` (function `upsertUserProfile`, lines 49–111), the one
  variant with the meaningful-candidate gate.  The SQL upsert
  (`INSERT ... ON CONFLICT (user_sub) DO UPDATE`) is modelled as a pure state
  transformer over a map from subject identifier to row.
* `extractMentions` — `src/unnamed/part_001` lines 28–34 (identical to
  `src/unnamed/part_002` lines 320–326 and `src/unnamed/part_003` lines
  314–320).
* `listMessages` (keyset pagination) — `src/unnamed/part_001` lines 352–396;
  the SQL row comparison `(tm.created_at, tm.id) < ($1, $2)` is the
  lexicographic order on (timestamp, id), and `ORDER BY created_at DESC,
  id DESC` is modelled by taking the table in that scan order (strictly
  descending, keys unique since `id` is the primary key).
* `listMessagesEnriched` — `src/unnamed/part_002` lines 328–345, the
  `LEFT JOIN` variant with the three-way `COALESCE` fallback.

Timestamps are modelled as `Nat`; nullable SQL columns as `Option`;
JavaScript string truthiness (`x || y`) as `orNonempty`.
-/

namespace LaunchOps

/-! ## JavaScript string primitives -/

/-- JS `x || d` for `x : string | null | undefined`: the empty string and
absent values are falsy. -/
def orNonempty (o : Option String) (d : String) : String :=
  match o with
  | some s => if s = "" then d else s
  | none => d

/-- Character class `[a-z0-9_.-]` of `toHandle`, by code point:
`'a'`–`'z'` are 97–122, `'0'`–`'9'` are 48–57, `'_'` is 95, `'.'` is 46,
`'-'` is 45. -/
def isHandleChar (c : Char) : Bool :=
  ((97 ≤ c.toNat && c.toNat ≤ 122) || (48 ≤ c.toNat && c.toNat ≤ 57) ||
    c.toNat = 95 || c.toNat = 46 || c.toNat = 45)

/-- JS `String.prototype.trim()` on a character list. -/
def trimChars (l : List Char) : List Char :=
  ((l.dropWhile Char.isWhitespace).reverse.dropWhile Char.isWhitespace).reverse

/-- JS `.trim()` on strings. -/
def jsTrim (s : String) : String :=
  ⟨trimChars s.data⟩

/-- `.replace(/[^a-z0-9_.-]+/g, "-")`: each maximal run of characters outside
the class collapses to a single `-`.  The boolean says whether the previous
character was part of such a run. -/
def collapseAux : Bool → List Char → List Char
  | _, [] => []
  | inRun, c :: cs =>
    if isHandleChar c then c :: collapseAux false cs
    else if inRun then collapseAux true cs
    else '-' :: collapseAux true cs

/-- `.replace(/^-+|-+$/g, "")`: drop the leading and trailing runs of `-`. -/
def stripHyphens (l : List Char) : List Char :=
  ((l.dropWhile (· = '-')).reverse.dropWhile (· = '-')).reverse

/-- The character-level pipeline of `toHandle`: trim, lowercase, collapse
non-`[a-z0-9_.-]` runs to `-`, strip leading/trailing `-`, then
`.slice(0, 32)`. -/
def handlePipeline (l : List Char) : List Char :=
  (stripHyphens (collapseAux false ((trimChars l).map Char.toLower))).take 32

/-- `toHandle` (src/unnamed/part_005 lines 94–101, src/unnamed/part_003 lines
14–21). -/
def toHandle (label : String) : String :=
  ⟨handlePipeline label.data⟩

/-! ## Identity claim set and candidate display name -/

/-- The claim set surfaced by a verified token (`AuthUser`). -/
structure AuthUser where
  sub : String
  email : Option String := none
  name : Option String := none
  nickname : Option String := none
  preferred_username : Option String := none
  picture : Option String := none
deriving DecidableEq

/-- `displayNameFromUser` (src/unnamed/part_005 lines 103–111): first truthy
value among `name`, `nickname`, `preferred_username`, `email`, then `sub`. -/
def displayNameFromUser (u : AuthUser) : String :=
  orNonempty u.name
    (orNonempty u.nickname
      (orNonempty u.preferred_username
        (orNonempty u.email u.sub)))

/-- `typeof x === "string" && x.trim() ? x.trim() : null`. -/
def trimToOption (o : Option String) : Option String :=
  match o with
  | some s => if jsTrim s = "" then none else some (jsTrim s)
  | none => none

/-! ## The users table and the resolver upsert -/

/-- A row of the `users` table (columns per `migrate()` in
src/backend/src/routes.ts: all text columns nullable except the key). -/
structure UserRow where
  user_sub : String
  email : Option String
  display_name : Option String
  picture_url : Option String
  handle : Option String
  last_seen : Nat
  updated_at : Nat
deriving DecidableEq

/-- The `users` table, keyed by `user_sub`. -/
abbrev Users := String → Option UserRow

/-- `upsertUserProfile` (src/unnamed/part_005 lines 49–92): read the existing
row, compute the final fields with the meaningful-candidate gate, then run the
`INSERT ... ON CONFLICT (user_sub) DO UPDATE` statement. -/
def upsertUserProfile (u : AuthUser) (now : Nat) (db : Users) : Users :=
  if u.sub = "" then db
  else
    let sub := u.sub
    let incomingDisplay := displayNameFromUser u
    let incomingEmail := trimToOption u.email
    let incomingPic := trimToOption u.picture
    let existingRow := db sub
    let finalDisplay :=
      if incomingDisplay ≠ "" ∧ incomingDisplay ≠ sub then incomingDisplay
      else orNonempty (existingRow.bind (·.display_name)) sub
    let finalEmail := incomingEmail.orElse fun _ => existingRow.bind (·.email)
    let finalPic := incomingPic.orElse fun _ => existingRow.bind (·.picture_url)
    let finalHandle :=
      orNonempty (some (toHandle finalDisplay))
        (orNonempty (existingRow.bind (·.handle))
          (orNonempty (some (toHandle sub)) ⟨sub.data.take 32⟩))
    match existingRow with
    | none => fun s =>
        if s = sub then
          some { user_sub := sub, email := finalEmail,
                 display_name := some finalDisplay, picture_url := finalPic,
                 handle := some finalHandle, last_seen := now, updated_at := now }
        else db s
    | some old => fun s =>
        if s = sub then
          some { user_sub := sub,
                 email := finalEmail.orElse fun _ => old.email,
                 display_name := some finalDisplay,
                 picture_url := finalPic.orElse fun _ => old.picture_url,
                 handle := some finalHandle, last_seen := now, updated_at := now }
        else db s

/-! ## Mention extraction -/

/-- Character class `[a-zA-Z0-9_.-]` of the mention regex, by code point
(`'A'`–`'Z'` are 65–90, the rest as in `isHandleChar`). -/
def isMentionChar (c : Char) : Bool :=
  ((97 ≤ c.toNat && c.toNat ≤ 122) || (65 ≤ c.toNat && c.toNat ≤ 90) ||
    (48 ≤ c.toNat && c.toNat ≤ 57) || c.toNat = 95 || c.toNat = 46 || c.toNat = 45)

/-- The scan loop of `/@([a-zA-Z0-9_.-]+)/g`: at an `@` followed by a
non-empty run of class characters, emit the maximal run and resume after it;
otherwise advance one character.  Each step consumes at least one character,
so running the scanner with the input length as fuel is exact. -/
def mentionScanFuel : Nat → List Char → List (List Char)
  | 0, _ => []
  | _ + 1, [] => []
  | fuel + 1, c :: cs =>
    if c = '@' ∧ cs.takeWhile isMentionChar ≠ [] then
      cs.takeWhile isMentionChar ::
        mentionScanFuel fuel (cs.drop (cs.takeWhile isMentionChar).length)
    else
      mentionScanFuel fuel cs

/-- Leftmost, maximal, non-overlapping matches of `@([a-zA-Z0-9_.-]+)`:
the capture groups in scan order. -/
def mentionScan (l : List Char) : List (List Char) :=
  mentionScanFuel l.length l

/-- `Array.from(new Set(out))`: deduplicate keeping the first occurrence,
`seen` accumulates the values already emitted. -/
def dedupFirstAux : List String → List String → List String
  | _, [] => []
  | seen, x :: xs =>
    if x ∈ seen then dedupFirstAux seen xs
    else x :: dedupFirstAux (x :: seen) xs

def dedupFirst (l : List String) : List String :=
  dedupFirstAux [] l

/-- `extractMentions` (src/unnamed/part_001 lines 28–34): collect the matches
of `@([a-zA-Z0-9_.-]+)` lowercased, deduplicate preserving first-seen order,
cap at 20. -/
def extractMentions (body : String) : List String :=
  (dedupFirst ((mentionScan body.data).map fun l => ⟨l.map Char.toLower⟩)).take 20

/-! ## The team_messages table and feed listing -/

/-- A row of the `team_messages` table.  `by_label` is kept optional to model
the SQL `COALESCE` chain over the nullable-typed column. -/
structure Msg where
  id : String
  userSub : String
  byLabel : Option String
  handle : String
  body : String
  mentions : List String
  createdAt : Nat
  page : Option String
deriving DecidableEq

/-- The keyset key of a message: `(created_at, id)`. -/
def msgKey (m : Msg) : Nat × String :=
  (m.createdAt, m.id)

/-- Lexicographic comparison of `TEXT` values by code point (UTF-8 byte order
and code-point order agree). -/
def lexLtB : List Char → List Char → Bool
  | [], [] => false
  | [], _ :: _ => true
  | _ :: _, [] => false
  | a :: as, b :: bs =>
    if a < b then true
    else if a = b then lexLtB as bs
    else false

/-- SQL row comparison `(created_at, id) < (before, beforeId)`: lexicographic
on timestamp, then id. -/
def keyLt (a b : Nat × String) : Prop :=
  a.1 < b.1 ∨ (a.1 = b.1 ∧ lexLtB a.2.data b.2.data = true)

instance (a b : Nat × String) : Decidable (keyLt a b) := by
  unfold keyLt; infer_instance

/-- The `WHERE (tm.created_at, tm.id) < ($1, $2)` clause (absent when no
cursor is supplied). -/
def filterBefore (msgs : List Msg) (cursor : Option (Nat × String)) : List Msg :=
  match cursor with
  | none => msgs
  | some k => msgs.filter fun m => decide (keyLt (msgKey m) k)

/-- The `limit` query parameter as received: absent, a non-numeric string
(`Number(...)` yields NaN), or a number. -/
inductive LimitParam
  | absent
  | nan
  | int (n : Int)
deriving DecidableEq

/-- Lines 353–354 of src/unnamed/part_001:
`Number.isFinite(limitRaw) ? Math.min(Math.max(limitRaw, 1), 100) : 30`,
with `limitRaw = Number(req.query.limit ?? 30)`. -/
def effLimit : LimitParam → Nat
  | .absent => 30
  | .nan => 30
  | .int n => (min (max n 1) 100).toNat

/-- The response shape of the feed listing. -/
structure FeedPage where
  items : List Msg
  hasMore : Bool
  next : Option (Nat × String)
deriving DecidableEq

/-- `listMessages` (src/unnamed/part_001 lines 352–396).  `msgs` is the table
in `ORDER BY created_at DESC, id DESC` scan order; the query fetches
`limit + 1` rows past the cursor, returns the first `limit`, and reports
`hasMore` and the next cursor. -/
def listMessages (msgs : List Msg) (cursor : Option (Nat × String))
    (lp : LimitParam) : FeedPage :=
  let limit := effLimit lp
  let fetched := (filterBefore msgs cursor).take (limit + 1)
  let items := fetched.take limit
  { items := items
    hasMore := decide (limit < fetched.length)
    next := items.getLast?.map msgKey }

/-! ## Enriched feed listing (LEFT JOIN variant) -/

/-- One row of the enriched listing response. -/
structure FeedItemView where
  id : String
  userSub : String
  byName : String
  handleName : String
  body : String
  createdAt : Nat
  mentions : List String
deriving DecidableEq

/-- The SELECT list of src/unnamed/part_002 lines 331–338:
`COALESCE(u.display_name, tm.by_label, tm.user_sub)` for the author label and
`COALESCE(u.handle, tm.handle)` for the handle, over a `LEFT JOIN users`. -/
def enrichRow (users : Users) (m : Msg) : FeedItemView :=
  { id := m.id
    userSub := m.userSub
    byName :=
      match (users m.userSub).bind (·.display_name) with
      | some d => d
      | none =>
        match m.byLabel with
        | some b => b
        | none => m.userSub
    handleName := ((users m.userSub).bind (·.handle)).getD m.handle
    body := m.body
    createdAt := m.createdAt
    mentions := m.mentions }

/-- `listMessages` (src/unnamed/part_002 lines 328–345): every stored message
(up to `LIMIT 200`, `msgs` in `ORDER BY created_at DESC` scan order) is
returned, enriched via the left join. -/
def listMessagesEnriched (users : Users) (msgs : List Msg) : List FeedItemView :=
  (msgs.take 200).map (enrichRow users)

/-! ## Basic facts about the resolver -/

/-- An optional claim field that JS treats as absent-or-empty. -/
def blankOpt (o : Option String) : Prop :=
  o = none ∨ o = some ""

/-- A claim set carrying only the bare subject identifier. -/
def bareClaims (sub : String) : AuthUser :=
  { sub := sub }

theorem displayNameFromUser_bare (sub : String) :
    displayNameFromUser (bareClaims sub) = sub := rfl

/-- C1: Non-regression of display name.  If the stored profile's display name
`d` is meaningful (non-empty, not the subject identifier, not
provider-qualified-looking), an upsert whose claim set carries only the bare
subject identifier leaves the stored display name unchanged. -/
theorem upsert_bare_sub_preserves_display_name
    (sub d : String) (now : Nat) (db : Users) (r : UserRow)
    (hrow : db sub = some r) (hd : r.display_name = some d)
    (hne : d ≠ "") (hnsub : d ≠ sub) (hnpq : ¬ '|' ∈ d.data) :
    ((upsertUserProfile (bareClaims sub) now db) sub).bind (·.display_name) =
      some d := by
  by_cases h0 : sub = ""
  · subst h0
    simp [upsertUserProfile, bareClaims, hrow, hd]
  · simp [upsertUserProfile, bareClaims, h0, hrow, hd, displayNameFromUser,
      orNonempty, hne]

/-- A one-row store used by the C1 witness. -/
def c1Store : Users := fun s =>
  if s = "auth0|123" then
    some { user_sub := "auth0|123", email := none,
           display_name := some "Jane Doe", picture_url := none,
           handle := some "jane-doe", last_seen := 3, updated_at := 3 }
  else none

/-- C1 witness at a concrete store. -/
theorem upsert_bare_sub_preserves_display_name_witness :
    ((upsertUserProfile (bareClaims "auth0|123") 9 c1Store) "auth0|123").bind
      (·.display_name) = some "Jane Doe" :=
  upsert_bare_sub_preserves_display_name "auth0|123" "Jane Doe" 9 c1Store
    { user_sub := "auth0|123", email := none, display_name := some "Jane Doe",
      picture_url := none, handle := some "jane-doe", last_seen := 3, updated_at := 3 }
    (by decide) (by decide) (by decide) (by decide) (by decide)

/-- C3: First-write guarantee.  Resolving a brand-new subject with only the
bare subject claim creates a profile row whose display name is the subject
string (in particular, neither null nor empty). -/
theorem upsert_first_write_creates_row
    (sub : String) (now : Nat) (db : Users)
    (hnew : db sub = none) (hsub : sub ≠ "") :
    ((upsertUserProfile (bareClaims sub) now db) sub).isSome = true
      ∧ ((upsertUserProfile (bareClaims sub) now db) sub).bind (·.display_name) =
          some sub
      ∧ sub ≠ ""
      ∧ ((upsertUserProfile (bareClaims sub) now db) sub).bind (·.email) = none
      ∧ ((upsertUserProfile (bareClaims sub) now db) sub).bind (·.picture_url) = none
      ∧ ((upsertUserProfile (bareClaims sub) now db) sub).map (·.last_seen) =
          some now := by
  refine ⟨?_, ?_, hsub, ?_, ?_, ?_⟩ <;>
    simp [upsertUserProfile, bareClaims, hsub, hnew, displayNameFromUser,
      orNonempty, trimToOption]

/-- C3 witness at a concrete (empty) store. -/
theorem upsert_first_write_creates_row_witness :
    ((upsertUserProfile (bareClaims "auth0|123") 4 (fun _ => none)) "auth0|123").isSome = true
      ∧ ((upsertUserProfile (bareClaims "auth0|123") 4 (fun _ => none)) "auth0|123").bind
          (·.display_name) = some "auth0|123"
      ∧ "auth0|123" ≠ ""
      ∧ ((upsertUserProfile (bareClaims "auth0|123") 4 (fun _ => none)) "auth0|123").bind
          (·.email) = none
      ∧ ((upsertUserProfile (bareClaims "auth0|123") 4 (fun _ => none)) "auth0|123").bind
          (·.picture_url) = none
      ∧ ((upsertUserProfile (bareClaims "auth0|123") 4 (fun _ => none)) "auth0|123").map
          (·.last_seen) = some 4 :=
  upsert_first_write_creates_row "auth0|123" 4 (fun _ => none) rfl (by decide)

/-- C5: Candidate display-name precedence.  The candidate is the first
non-empty value among `name`, `nickname`, `preferred_username`, `email`, and
finally the subject identifier, in exactly that order. -/
theorem displayNameFromUser_precedence (u : AuthUser) :
    (∀ s, u.name = some s → s ≠ "" → displayNameFromUser u = s)
    ∧ (blankOpt u.name →
        ∀ s, u.nickname = some s → s ≠ "" → displayNameFromUser u = s)
    ∧ (blankOpt u.name → blankOpt u.nickname →
        ∀ s, u.preferred_username = some s → s ≠ "" → displayNameFromUser u = s)
    ∧ (blankOpt u.name → blankOpt u.nickname → blankOpt u.preferred_username →
        ∀ s, u.email = some s → s ≠ "" → displayNameFromUser u = s)
    ∧ (blankOpt u.name → blankOpt u.nickname → blankOpt u.preferred_username →
        blankOpt u.email → displayNameFromUser u = u.sub) := by
  refine ⟨?_, ?_, ?_, ?_, ?_⟩
  · intro s hs hne
    simp [displayNameFromUser, hs, orNonempty, hne]
  · rintro (h | h) s hs hne <;>
      simp [displayNameFromUser, h, hs, orNonempty, hne]
  · rintro (h | h) (h2 | h2) s hs hne <;>
      simp [displayNameFromUser, h, h2, hs, orNonempty, hne]
  · rintro (h | h) (h2 | h2) (h3 | h3) s hs hne <;>
      simp [displayNameFromUser, h, h2, h3, hs, orNonempty, hne]
  · rintro (h | h) (h2 | h2) (h3 | h3) (h4 | h4) <;>
      simp [displayNameFromUser, h, h2, h3, h4, orNonempty]

/-- C5 witness: with `name` blank and `nickname` absent, the
`preferred_username` wins. -/
theorem displayNameFromUser_precedence_witness :
    displayNameFromUser
      { sub := "auth0|7", name := some "", nickname := none,
        preferred_username := some "ops.jane", email := some "jane@x.co" } =
      "ops.jane" :=
  (displayNameFromUser_precedence _).2.2.1 (Or.inr rfl) (Or.inl rfl)
    "ops.jane" rfl (by decide)

/-- C6: Absent-claim frame.  On an existing profile, an absent email
(respectively picture) claim leaves the stored email (respectively picture
URL) unchanged, while the last-seen timestamp is always advanced to now. -/
theorem upsert_absent_claim_frame
    (u : AuthUser) (now : Nat) (db : Users) (r : UserRow)
    (hrow : db u.sub = some r) (hsub : u.sub ≠ "") :
    ((upsertUserProfile u now db) u.sub).isSome = true
      ∧ (u.email = none →
          ((upsertUserProfile u now db) u.sub).bind (·.email) = r.email)
      ∧ (u.picture = none →
          ((upsertUserProfile u now db) u.sub).bind (·.picture_url) = r.picture_url)
      ∧ ((upsertUserProfile u now db) u.sub).map (·.last_seen) = some now := by
  refine ⟨?_, ?_, ?_, ?_⟩
  · simp [upsertUserProfile, hsub, hrow]
  · intro he
    simp [upsertUserProfile, hsub, hrow, he, trimToOption, Option.orElse]
    cases hre : r.email <;> simp
  · intro hp
    simp [upsertUserProfile, hsub, hrow, hp, trimToOption, Option.orElse]
    cases hrp : r.picture_url <;> simp
  · simp [upsertUserProfile, hsub, hrow]

/-- A one-row store used by the C6 witness. -/
def c6Store : Users := fun s =>
  if s = "auth0|123" then
    some { user_sub := "auth0|123", email := some "jane@x.co",
           display_name := some "Jane", picture_url := some "http://pic",
           handle := some "jane", last_seen := 3, updated_at := 3 }
  else none

/-- C6 witness at a concrete store. -/
theorem upsert_absent_claim_frame_witness :
    ((upsertUserProfile { sub := "auth0|123", name := some "Jane Doe" } 9 c6Store)
        "auth0|123").isSome = true
      ∧ (({ sub := "auth0|123", name := some "Jane Doe" } : AuthUser).email = none →
          ((upsertUserProfile { sub := "auth0|123", name := some "Jane Doe" } 9 c6Store)
            "auth0|123").bind (·.email) = some "jane@x.co")
      ∧ (({ sub := "auth0|123", name := some "Jane Doe" } : AuthUser).picture = none →
          ((upsertUserProfile { sub := "auth0|123", name := some "Jane Doe" } 9 c6Store)
            "auth0|123").bind (·.picture_url) = some "http://pic")
      ∧ ((upsertUserProfile { sub := "auth0|123", name := some "Jane Doe" } 9 c6Store)
          "auth0|123").map (·.last_seen) = some 9 :=
  upsert_absent_claim_frame { sub := "auth0|123", name := some "Jane Doe" } 9 c6Store
    { user_sub := "auth0|123", email := some "jane@x.co", display_name := some "Jane",
      picture_url := some "http://pic", handle := some "jane", last_seen := 3, updated_at := 3 }
    (by decide) (by decide)

/-! ## The meaningful-candidate gate (C2) -/

/-- A one-row store used by the C2 counterexample: the stored display name
"Jane Doe" is meaningful. -/
def c2Store : Users := fun s =>
  if s = "auth0|123" then
    some { user_sub := "auth0|123", email := none,
           display_name := some "Jane Doe", picture_url := none,
           handle := some "jane-doe", last_seen := 3, updated_at := 3 }
  else none

/-- C2 counterexample: a candidate containing the separator `|` that differs
from the subject identifier does replace the stored display name — the code's
gate checks only non-emptiness and inequality with the subject, not the
provider-qualified pattern. -/
theorem gate_allows_pipe_candidate_counterexample :
    '|' ∈ "google-oauth2|999".data
    ∧ "google-oauth2|999" ≠ "auth0|123"
    ∧ (c2Store "auth0|123").bind (·.display_name) = some "Jane Doe"
    ∧ ((upsertUserProfile
          { sub := "auth0|123", name := some "google-oauth2|999" } 9 c2Store)
        "auth0|123").bind (·.display_name) = some "google-oauth2|999" := by
  refine ⟨by decide, by decide, by decide, ?_⟩
  decide

/-- C2 amended: the gate is exactly "candidate non-empty and different from
the subject identifier".  Such a candidate always overwrites the stored
display name (even when it contains `|`), and a candidate failing the gate
leaves a non-empty stored display name unchanged. -/
theorem gate_meaningful_candidate
    (u : AuthUser) (now : Nat) (db : Users) (r : UserRow)
    (hrow : db u.sub = some r) (hsub : u.sub ≠ "") :
    (displayNameFromUser u ≠ "" → displayNameFromUser u ≠ u.sub →
      ((upsertUserProfile u now db) u.sub).bind (·.display_name) =
        some (displayNameFromUser u))
    ∧ (∀ d, r.display_name = some d → d ≠ "" →
        (displayNameFromUser u = "" ∨ displayNameFromUser u = u.sub) →
        ((upsertUserProfile u now db) u.sub).bind (·.display_name) = some d) := by
  constructor
  · intro hne hnsub
    simp [upsertUserProfile, hsub, hrow, hne, hnsub]
  · intro d hd hdne hfail
    rcases hfail with hfail | hfail <;>
      simp [upsertUserProfile, hsub, hrow, hd, hfail, orNonempty, hdne]

/-- C2 amended witness: the `|`-containing candidate of the counterexample
passes the gate and overwrites. -/
theorem gate_meaningful_candidate_witness :
    (displayNameFromUser { sub := "auth0|123", name := some "google-oauth2|999" } ≠ "" →
      displayNameFromUser { sub := "auth0|123", name := some "google-oauth2|999" } ≠
        "auth0|123" →
      ((upsertUserProfile { sub := "auth0|123", name := some "google-oauth2|999" } 9
          c2Store) "auth0|123").bind (·.display_name) =
        some (displayNameFromUser { sub := "auth0|123", name := some "google-oauth2|999" }))
    ∧ ((upsertUserProfile { sub := "auth0|123", name := some "google-oauth2|999" } 9
          c2Store) "auth0|123").bind (·.display_name) = some "google-oauth2|999" :=
  ⟨((gate_meaningful_candidate
      { sub := "auth0|123", name := some "google-oauth2|999" } 9 c2Store
      { user_sub := "auth0|123", email := none, display_name := some "Jane Doe",
        picture_url := none, handle := some "jane-doe", last_seen := 3, updated_at := 3 }
      (by decide) (by decide)).1),
    ((gate_meaningful_candidate
      { sub := "auth0|123", name := some "google-oauth2|999" } 9 c2Store
      { user_sub := "auth0|123", email := none, display_name := some "Jane Doe",
        picture_url := none, handle := some "jane-doe", last_seen := 3, updated_at := 3 }
      (by decide) (by decide)).1 (by decide) (by decide))⟩

/-! ## Page-size clamp (C10) -/

/-- C10: the effective page size is the requested limit clamped into
`[1, 100]`, defaulting to 30 when the parameter is absent or not a finite
number, and the listing never returns more than 100 items. -/
theorem effLimit_clamp :
    (∀ lp : LimitParam, 1 ≤ effLimit lp ∧ effLimit lp ≤ 100)
    ∧ effLimit .absent = 30
    ∧ effLimit .nan = 30
    ∧ (∀ n : Int, n < 1 → effLimit (.int n) = 1)
    ∧ (∀ n : Int, 100 < n → effLimit (.int n) = 100)
    ∧ (∀ n : Int, 1 ≤ n → n ≤ 100 → (effLimit (.int n) : Int) = n)
    ∧ (∀ (msgs : List Msg) (cursor : Option (Nat × String)) (lp : LimitParam),
        (listMessages msgs cursor lp).items.length ≤ 100) := by
  have hb : ∀ lp : LimitParam, 1 ≤ effLimit lp ∧ effLimit lp ≤ 100 := by
    intro lp
    cases lp with
    | absent => exact ⟨by decide, by decide⟩
    | nan => exact ⟨by decide, by decide⟩
    | int n => simp only [effLimit]; omega
  refine ⟨hb, rfl, rfl, ?_, ?_, ?_, ?_⟩
  · intro n h; simp only [effLimit]; omega
  · intro n h; simp only [effLimit]; omega
  · intro n h1 h2; simp only [effLimit]; omega
  · intro msgs cursor lp
    calc (listMessages msgs cursor lp).items.length
        ≤ effLimit lp := by
          simp only [listMessages, List.length_take]
          omega
      _ ≤ 100 := (hb lp).2

/-- C10 witness: an oversized request is clamped to 100, so at most 100 items
come back. -/
theorem effLimit_clamp_witness :
    effLimit (.int 100000) = 100
    ∧ (listMessages [] none (.int 100000)).items.length ≤ 100 :=
  ⟨effLimit_clamp.2.2.2.2.1 100000 (by decide),
    effLimit_clamp.2.2.2.2.2.2 [] none (.int 100000)⟩

/-! ## Fallback display on read (C9) -/

/-- C9: every message within the listing window is returned regardless of
whether its subject has a profile row, and its "by" field follows the chain
live display name → stored snapshot label → subject identifier and is
non-empty (under the store invariants: non-empty subject, non-empty stored
labels, non-empty profile display names). -/
theorem enrich_fallback_display
    (users : Users) (msgs : List Msg) (m : Msg)
    (hm : m ∈ msgs.take 200)
    (hsub : m.userSub ≠ "")
    (hlbl : ∀ b, m.byLabel = some b → b ≠ "")
    (hprof : ∀ u, users m.userSub = some u →
      ∀ d, u.display_name = some d → d ≠ "") :
    enrichRow users m ∈ listMessagesEnriched users msgs
    ∧ (∀ u d, users m.userSub = some u → u.display_name = some d →
        (enrichRow users m).byName = d)
    ∧ ((users m.userSub).bind (·.display_name) = none →
        ∀ b, m.byLabel = some b → (enrichRow users m).byName = b)
    ∧ ((users m.userSub).bind (·.display_name) = none → m.byLabel = none →
        (enrichRow users m).byName = m.userSub)
    ∧ (enrichRow users m).byName ≠ "" := by
  refine ⟨List.mem_map_of_mem (enrichRow users) hm, ?_, ?_, ?_, ?_⟩
  · intro u d hu hd
    simp [enrichRow, hu, hd]
  · intro hnone b hb
    simp [enrichRow, hnone, hb]
  · intro hnone hb
    simp [enrichRow, hnone, hb]
  · cases hj : (users m.userSub) with
    | none =>
      cases hb : m.byLabel with
      | none => simpa [enrichRow, hj, hb] using hsub
      | some b => simpa [enrichRow, hj, hb] using hlbl b hb
    | some u =>
      cases hd : u.display_name with
      | none =>
        cases hb : m.byLabel with
        | none => simpa [enrichRow, hj, hd, hb] using hsub
        | some b => simpa [enrichRow, hj, hd, hb] using hlbl b hb
      | some d => simpa [enrichRow, hj, hd] using hprof u hj d hd

/-- The message used by the C9 witness: its subject has no profile row. -/
def c9Msg : Msg :=
  { id := "m1", userSub := "auth0|gone", byLabel := some "Jane Doe",
    handle := "jane-doe", body := "hello", mentions := [], createdAt := 5,
    page := none }

/-- C9 witness: with an empty profile table the message is still listed and
its "by" field falls back to the stored snapshot. -/
theorem enrich_fallback_display_witness :
    enrichRow (fun _ => none) c9Msg ∈ listMessagesEnriched (fun _ => none) [c9Msg]
    ∧ (((fun _ => none : Users) c9Msg.userSub).bind (·.display_name) = none →
        ∀ b, c9Msg.byLabel = some b → (enrichRow (fun _ => none) c9Msg).byName = b)
    ∧ (enrichRow (fun _ => none) c9Msg).byName ≠ "" :=
  ⟨(enrich_fallback_display (fun _ => none) [c9Msg] c9Msg (by decide) (by decide)
      (by intro b hb; cases hb; decide) (by intro u hu; cases hu)).1,
    (enrich_fallback_display (fun _ => none) [c9Msg] c9Msg (by decide) (by decide)
      (by intro b hb; cases hb; decide) (by intro u hu; cases hu)).2.2.1,
    (enrich_fallback_display (fun _ => none) [c9Msg] c9Msg (by decide) (by decide)
      (by intro b hb; cases hb; decide) (by intro u hu; cases hu)).2.2.2.2⟩

/-! ## Mention extraction (C7) -/

theorem mentionScanFuel_ne_nil :
    ∀ (fuel : Nat) (l : List Char), ∀ r ∈ mentionScanFuel fuel l, r ≠ [] := by
  intro fuel
  induction fuel with
  | zero => intro l r hr; simp [mentionScanFuel] at hr
  | succ n ih =>
    intro l r hr
    cases l with
    | nil => simp [mentionScanFuel] at hr
    | cons c cs =>
      by_cases h : c = '@' ∧ cs.takeWhile isMentionChar ≠ []
      · rw [mentionScanFuel, if_pos h] at hr
        rcases List.mem_cons.1 hr with h1 | h1
        · exact h1 ▸ h.2
        · exact ih _ r h1
      · rw [mentionScanFuel, if_neg h] at hr
        exact ih _ r hr

theorem dedupFirstAux_sublist :
    ∀ (l seen : List String), (dedupFirstAux seen l).Sublist l := by
  intro l
  induction l with
  | nil => intro seen; simp [dedupFirstAux]
  | cons x xs ih =>
    intro seen
    by_cases h : x ∈ seen
    · rw [dedupFirstAux, if_pos h]
      exact (ih seen).cons x
    · rw [dedupFirstAux, if_neg h]
      exact (ih (x :: seen)).cons₂ x

theorem dedupFirstAux_nodup :
    ∀ (l seen : List String),
      (∀ x ∈ dedupFirstAux seen l, x ∉ seen) ∧ (dedupFirstAux seen l).Nodup := by
  intro l
  induction l with
  | nil => intro seen; simp [dedupFirstAux]
  | cons x xs ih =>
    intro seen
    by_cases h : x ∈ seen
    · rw [dedupFirstAux, if_pos h]
      exact ⟨(ih seen).1, (ih seen).2⟩
    · rw [dedupFirstAux, if_neg h]
      constructor
      · intro y hy hmem
        rcases List.mem_cons.1 hy with h1 | h1
        · exact h ((h1 ▸ hmem))
        · exact (ih (x :: seen)).1 y h1 (List.mem_cons_of_mem _ hmem)
      · refine List.nodup_cons.2 ⟨?_, (ih (x :: seen)).2⟩
        intro hx
        exact (ih (x :: seen)).1 x hx (List.mem_cons_self x seen)

/-- C7: mention extraction.  The worked example from the spec holds, and for
every body the result is duplicate-free, capped at 20, is a subsequence (in
first-seen order) of the lowercased raw regex matches, and contains no empty
mention. -/
theorem extractMentions_spec :
    extractMentions "hey @Alice and @bob, also @Alice" = ["alice", "bob"]
    ∧ ∀ body : String,
        (extractMentions body).Nodup
        ∧ (extractMentions body).length ≤ 20
        ∧ (extractMentions body).Sublist
            ((mentionScan body.data).map fun l => (⟨l.map Char.toLower⟩ : String))
        ∧ ∀ m ∈ extractMentions body, m ≠ "" := by
  refine ⟨by decide, ?_⟩
  intro body
  refine ⟨?_, ?_, ?_, ?_⟩
  · exact ((dedupFirstAux_nodup _ []).2).sublist (List.take_sublist _ _)
  · exact List.length_take_le _ _
  · exact (List.take_sublist _ _).trans (dedupFirstAux_sublist _ [])
  · intro m hm
    have hmem : m ∈ (mentionScan body.data).map
        fun l => (⟨l.map Char.toLower⟩ : String) :=
      ((List.take_sublist _ _).trans (dedupFirstAux_sublist _ [])).mem hm
    rcases List.mem_map.1 hmem with ⟨r, hr, rfl⟩
    have hne := mentionScanFuel_ne_nil _ _ r hr
    simp only [ne_eq, String.ext_iff]
    intro hdata
    exact hne (List.map_eq_nil_iff.1 hdata)

/-- C7 witness: the general clauses evaluated at a concrete body. -/
theorem extractMentions_spec_witness :
    (extractMentions "cc @Ops.Team and @ops.team").Nodup
    ∧ (extractMentions "cc @Ops.Team and @ops.team").length ≤ 20
    ∧ ∀ m ∈ extractMentions "cc @Ops.Team and @ops.team", m ≠ "" :=
  ⟨(extractMentions_spec.2 "cc @Ops.Team and @ops.team").1,
    (extractMentions_spec.2 "cc @Ops.Team and @ops.team").2.1,
    (extractMentions_spec.2 "cc @Ops.Team and @ops.team").2.2.2⟩

/-! ## Handle derivation (C4) -/

theorem dropWhile_eq_self_of_head {α : Type} (p : α → Bool) (l : List α)
    (h : ∀ c, l.head? = some c → p c = false) : l.dropWhile p = l := by
  cases l with
  | nil => rfl
  | cons x xs =>
    rw [List.dropWhile_cons, if_neg]
    simp [h x rfl]

theorem head?_dropWhile {α : Type} (p : α → Bool) :
    ∀ (l : List α) (c : α), (l.dropWhile p).head? = some c → p c = false := by
  intro l
  induction l with
  | nil => intro c hc; simp [List.dropWhile] at hc
  | cons x xs ih =>
    intro c hc
    rw [List.dropWhile_cons] at hc
    by_cases hx : p x = true
    · rw [if_pos hx] at hc
      exact ih c hc
    · rw [if_neg hx] at hc
      cases hc
      simpa using hx

theorem getLast?_dropWhile {α : Type} (p : α → Bool) :
    ∀ l : List α, l.dropWhile p ≠ [] → (l.dropWhile p).getLast? = l.getLast? := by
  intro l
  induction l with
  | nil => intro h; simp [List.dropWhile] at h
  | cons x xs ih =>
    intro h
    rw [List.dropWhile_cons] at h ⊢
    by_cases hx : p x = true
    · rw [if_pos hx] at h ⊢
      rw [ih h]
      cases xs with
      | nil => exact absurd (rfl : (List.dropWhile p [] : List α) = []) h
      | cons y ys => rw [List.getLast?_cons_cons]
    · rw [if_neg hx]

theorem collapseAux_mem :
    ∀ (l : List Char) (b : Bool), ∀ c ∈ collapseAux b l, isHandleChar c = true := by
  intro l
  induction l with
  | nil => intro b c hc; simp [collapseAux] at hc
  | cons x xs ih =>
    intro b c hc
    by_cases hx : isHandleChar x
    · rw [collapseAux, if_pos hx] at hc
      rcases List.mem_cons.1 hc with rfl | hc
      · exact hx
      · exact ih false c hc
    · rw [collapseAux, if_neg hx] at hc
      cases b with
      | true => exact ih true c hc
      | false =>
        rw [if_neg (by simp)] at hc
        rcases List.mem_cons.1 hc with rfl | hc
        · decide
        · exact ih true c hc

theorem collapseAux_eq_self :
    ∀ (l : List Char) (b : Bool), (∀ c ∈ l, isHandleChar c = true) →
      collapseAux b l = l := by
  intro l
  induction l with
  | nil => intro b _; rfl
  | cons x xs ih =>
    intro b h
    rw [collapseAux, if_pos (h x (List.mem_cons_self x xs))]
    rw [ih false fun c hc => h c (List.mem_cons_of_mem x hc)]

theorem stripHyphens_mem (l : List Char) : ∀ c ∈ stripHyphens l, c ∈ l := by
  intro c hc
  unfold stripHyphens at hc
  rw [List.mem_reverse] at hc
  have h1 := (List.dropWhile_sublist (l := (l.dropWhile (· = '-')).reverse)
    (p := (· = '-'))).mem hc
  rw [List.mem_reverse] at h1
  exact (List.dropWhile_sublist (l := l) (p := (· = '-'))).mem h1

theorem stripHyphens_head (l : List Char) :
    ∀ c, (stripHyphens l).head? = some c → c ≠ '-' := by
  intro c hc
  unfold stripHyphens at hc
  rw [List.head?_reverse] at hc
  have hnil : (l.dropWhile (· = '-')).reverse.dropWhile (· = '-') ≠ [] := by
    intro he
    rw [he] at hc
    simp at hc
  rw [getLast?_dropWhile _ _ hnil, List.getLast?_reverse] at hc
  have := head?_dropWhile (· = '-') l c hc
  simpa using this

theorem stripHyphens_last (l : List Char) :
    ∀ c, (stripHyphens l).getLast? = some c → c ≠ '-' := by
  intro c hc
  unfold stripHyphens at hc
  rw [List.getLast?_reverse] at hc
  have := head?_dropWhile (· = '-') (l.dropWhile (· = '-')).reverse c hc
  simpa using this

theorem stripHyphens_eq_self (l : List Char)
    (hh : ∀ c, l.head? = some c → c ≠ '-')
    (hl : ∀ c, l.getLast? = some c → c ≠ '-') :
    stripHyphens l = l := by
  unfold stripHyphens
  have h1 : l.dropWhile (· = '-') = l := by
    refine dropWhile_eq_self_of_head _ _ ?_
    intro c hc
    simpa using hh c hc
  rw [h1]
  have h2 : l.reverse.dropWhile (· = '-') = l.reverse := by
    refine dropWhile_eq_self_of_head _ _ ?_
    intro c hc
    rw [List.head?_reverse] at hc
    simpa using hl c hc
  rw [h2, List.reverse_reverse]

theorem isHandleChar_not_whitespace (c : Char) (h : isHandleChar c = true) :
    c.isWhitespace = false := by
  cases hw : c.isWhitespace with
  | false => rfl
  | true =>
    exfalso
    simp only [Char.isWhitespace, Bool.or_eq_true, decide_eq_true_eq] at hw
    rcases hw with ((h1 | h1) | h1) | h1 <;> subst h1 <;> exact absurd h (by decide)

theorem toLower_eq_self_of_handleChar (c : Char) (h : isHandleChar c = true) :
    c.toLower = c := by
  have hb : ¬(c.toNat ≥ 65 ∧ c.toNat ≤ 90) := by
    simp only [isHandleChar, Bool.or_eq_true, Bool.and_eq_true,
      decide_eq_true_eq] at h
    rcases h with (((h1 | h1) | h1) | h1) | h1 <;> omega
  simp only [Char.toLower]
  rw [if_neg hb]

theorem trimChars_eq_self (l : List Char)
    (h : ∀ c ∈ l, c.isWhitespace = false) : trimChars l = l := by
  unfold trimChars
  have h1 : l.dropWhile Char.isWhitespace = l := by
    refine dropWhile_eq_self_of_head _ _ ?_
    intro c hc
    exact h c (List.mem_of_mem_head? hc)
  rw [h1]
  have h2 : l.reverse.dropWhile Char.isWhitespace = l.reverse := by
    refine dropWhile_eq_self_of_head _ _ ?_
    intro c hc
    exact h c (List.mem_reverse.1 (List.mem_of_mem_head? hc))
  rw [h2, List.reverse_reverse]

theorem handlePipeline_mem (l : List Char) :
    ∀ c ∈ handlePipeline l, isHandleChar c = true := by
  intro c hc
  unfold handlePipeline at hc
  have h1 := List.take_subset 32 _ hc
  have h2 := stripHyphens_mem _ c h1
  exact collapseAux_mem _ false c h2

theorem head?_take_pos {α : Type} (l : List α) (n : Nat) (hn : n ≠ 0) :
    (l.take n).head? = l.head? := by
  cases l with
  | nil => simp
  | cons x xs =>
    obtain ⟨m, rfl⟩ := Nat.exists_eq_succ_of_ne_zero hn
    simp

theorem handlePipeline_head (l : List Char) :
    ∀ c, (handlePipeline l).head? = some c → c ≠ '-' := by
  intro c hc
  unfold handlePipeline at hc
  rw [head?_take_pos _ 32 (by decide)] at hc
  exact stripHyphens_head _ c hc

theorem handlePipeline_length (l : List Char) :
    (handlePipeline l).length ≤ 32 := by
  unfold handlePipeline
  exact List.length_take_le _ _

theorem handlePipeline_idem (l : List Char)
    (hlast : (handlePipeline l).getLast? ≠ some '-') :
    handlePipeline (handlePipeline l) = handlePipeline l := by
  have hch := handlePipeline_mem l
  have htrim : trimChars (handlePipeline l) = handlePipeline l :=
    trimChars_eq_self _ fun c hc => isHandleChar_not_whitespace c (hch c hc)
  have hmap : (handlePipeline l).map Char.toLower = handlePipeline l := by
    rw [List.map_congr_left fun c hc => toLower_eq_self_of_handleChar c (hch c hc)]
    exact List.map_id _
  have hcoll : collapseAux false (handlePipeline l) = handlePipeline l :=
    collapseAux_eq_self _ false hch
  have hstrip : stripHyphens (handlePipeline l) = handlePipeline l := by
    refine stripHyphens_eq_self _ (handlePipeline_head l) ?_
    intro c hc h1
    exact hlast (h1 ▸ hc)
  have htake : (handlePipeline l).take 32 = handlePipeline l :=
    List.take_of_length_le (handlePipeline_length l)
  calc handlePipeline (handlePipeline l)
      = (stripHyphens (collapseAux false
          ((trimChars (handlePipeline l)).map Char.toLower))).take 32 := rfl
    _ = handlePipeline l := by rw [htrim, hmap, hcoll, hstrip, htake]

/-- The C4 counterexample input: 31 `a`s, a space, then `b`; its handle is 32
characters ending in `-`. -/
def c4Input : String := "aaaaaaaaaaaaaaaaaaaaaaaaaaaaaaa b"

/-- C4 counterexample: `toHandle` is not idempotent and its output can end in
the separator, because the leading/trailing strip happens before the
truncation to 32 characters. -/
theorem toHandle_not_idempotent_counterexample :
    toHandle (toHandle c4Input) ≠ toHandle c4Input
    ∧ (toHandle c4Input).data.getLast? = some '-'
    ∧ (toHandle c4Input).length = 32 := by
  refine ⟨?_, by decide, by decide⟩
  decide

/-- C4 amended: every handle matches `[a-z0-9_.-]{0,32}` and never starts
with the separator `-`; whenever the output does not end in `-` (in
particular whenever no truncation cut happened right after a separator),
re-deriving the handle from it is the identity. -/
theorem toHandle_shape_amended (s : String) :
    (toHandle s).length ≤ 32
    ∧ (∀ c ∈ (toHandle s).data, isHandleChar c = true)
    ∧ (∀ c, (toHandle s).data.head? = some c → c ≠ '-')
    ∧ ((toHandle s).data.getLast? ≠ some '-' →
        toHandle (toHandle s) = toHandle s) := by
  refine ⟨handlePipeline_length _, handlePipeline_mem _, handlePipeline_head _, ?_⟩
  intro hlast
  show (⟨handlePipeline (toHandle s).data⟩ : String) = toHandle s
  rw [show (toHandle s).data = handlePipeline s.data from rfl] at hlast ⊢
  rw [handlePipeline_idem s.data hlast]
  rfl

/-- C4 amended witness at a concrete label. -/
theorem toHandle_shape_amended_witness :
    (toHandle "Jane Doe").length ≤ 32
    ∧ toHandle (toHandle "Jane Doe") = toHandle "Jane Doe" :=
  ⟨(toHandle_shape_amended "Jane Doe").1,
    (toHandle_shape_amended "Jane Doe").2.2.2 (by decide)⟩

/-! ## Keyset pagination (C8) -/

theorem lexLtB_cons_iff (a b : Char) (as bs : List Char) :
    lexLtB (a :: as) (b :: bs) = true ↔
      (a < b ∨ (a = b ∧ lexLtB as bs = true)) := by
  simp only [lexLtB]
  by_cases hab : a < b
  · simp [hab]
  · by_cases heq : a = b
    · simp [hab, heq]
    · simp [hab, heq]

theorem lexLtB_irrefl : ∀ l : List Char, lexLtB l l = false := by
  intro l
  induction l with
  | nil => rfl
  | cons a as ih =>
    simp only [lexLtB]
    rw [if_neg (Char.lt_irrefl a)]
    simpa using ih

theorem lexLtB_trans :
    ∀ l1 l2 l3 : List Char, lexLtB l1 l2 = true → lexLtB l2 l3 = true →
      lexLtB l1 l3 = true := by
  intro l1
  induction l1 with
  | nil =>
    intro l2 l3 h12 h23
    cases l2 with
    | nil => simp [lexLtB] at h12
    | cons b bs =>
      cases l3 with
      | nil => simp [lexLtB] at h23
      | cons c cs => rfl
  | cons a as ih =>
    intro l2 l3 h12 h23
    cases l2 with
    | nil => simp [lexLtB] at h12
    | cons b bs =>
      cases l3 with
      | nil => simp [lexLtB] at h23
      | cons c cs =>
        rw [lexLtB_cons_iff] at h12 h23 ⊢
        rcases h12 with h12 | ⟨rfl, h12⟩
        · rcases h23 with h23 | ⟨rfl, h23⟩
          · exact Or.inl (Char.lt_trans h12 h23)
          · exact Or.inl h12
        · rcases h23 with h23 | ⟨rfl, h23⟩
          · exact Or.inl h23
          · exact Or.inr ⟨rfl, ih bs cs h12 h23⟩

theorem keyLt_irrefl (k : Nat × String) : ¬ keyLt k k := by
  rintro (h | ⟨h1, h2⟩)
  · exact Nat.lt_irrefl _ h
  · rw [lexLtB_irrefl] at h2
    exact Bool.false_ne_true h2

theorem keyLt_trans {a b c : Nat × String}
    (h1 : keyLt a b) (h2 : keyLt b c) : keyLt a c := by
  rcases h1 with h1 | ⟨h1e, h1s⟩ <;> rcases h2 with h2 | ⟨h2e, h2s⟩
  · exact Or.inl (Nat.lt_trans h1 h2)
  · exact Or.inl (h2e ▸ h1)
  · exact Or.inl (h1e ▸ h2)
  · exact Or.inr ⟨h1e.trans h2e, lexLtB_trans _ _ _ h1s h2s⟩

theorem keyLt_asymm {a b : Nat × String} (h : keyLt a b) : ¬ keyLt b a :=
  fun h2 => keyLt_irrefl a (keyLt_trans h h2)

/-- The table scan order of `ORDER BY created_at DESC, id DESC`: keys are
strictly descending (unique, since `id` is the primary key). -/
def SortedDesc (msgs : List Msg) : Prop :=
  msgs.Pairwise fun a b => keyLt (msgKey b) (msgKey a)

instance (msgs : List Msg) : Decidable (SortedDesc msgs) := by
  unfold SortedDesc
  infer_instance

theorem filter_keyLt_drop (l : List Msg) (hs : SortedDesc l) :
    ∀ (i : Nat) (m : Msg), l[i]? = some m →
      l.filter (fun x => decide (keyLt (msgKey x) (msgKey m))) = l.drop (i + 1) := by
  induction l with
  | nil => intro i m hm; simp at hm
  | cons x xs ih =>
    intro i m hm
    rw [SortedDesc, List.pairwise_cons] at hs
    obtain ⟨hx, hxs⟩ := hs
    cases i with
    | zero =>
      simp only [List.getElem?_cons_zero] at hm
      obtain rfl := Option.some.inj hm
      rw [List.filter_cons, if_neg (by simp [keyLt_irrefl])]
      rw [List.drop_succ_cons, List.drop_zero]
      refine List.filter_eq_self.mpr ?_
      intro y hy
      exact decide_eq_true (hx y hy)
    | succ j =>
      simp only [List.getElem?_cons_succ] at hm
      have hmem : m ∈ xs := List.getElem?_mem hm
      rw [List.filter_cons,
        if_neg (by simp [keyLt_asymm (hx m hmem)])]
      rw [ih hxs j m hm, List.drop_succ_cons]

theorem take_getLast?_getElem (l : List Msg) (n : Nat) (m : Msg)
    (h : (l.take n).getLast? = some m) :
    l[(l.take n).length - 1]? = some m ∧ 1 ≤ (l.take n).length := by
  have h0 : l.take n ≠ [] := by
    intro he
    rw [he] at h
    simp at h
  have hlen : 1 ≤ (l.take n).length := List.length_pos.mpr h0
  have hle : (l.take n).length ≤ n := by
    rw [List.length_take]
    exact Nat.min_le_left _ _
  rw [List.getLast?_eq_getElem?] at h
  refine ⟨?_, hlen⟩
  rw [← List.getElem?_take_of_lt (l := l) (show (l.take n).length - 1 < n by omega)]
  exact h

theorem filter_subsumed {α : Type} (p q : α → Bool)
    (himp : ∀ x, q x = true → p x = true) :
    ∀ l : List α, l.filter q = (l.filter p).filter q := by
  intro l
  induction l with
  | nil => rfl
  | cons a l ih =>
    rw [List.filter_cons, List.filter_cons]
    by_cases hq : q a = true
    · rw [if_pos hq, if_pos (himp a hq), List.filter_cons, if_pos hq, ih]
    · rw [if_neg hq]
      by_cases hp : p a = true
      · rw [if_pos hp, List.filter_cons, if_neg hq, ih]
      · rw [if_neg hp, ih]

theorem take_eq_take_length {α : Type} (l : List α) (n : Nat) :
    l.take n = l.take (min n l.length) := by
  by_cases h : n ≤ l.length
  · rw [Nat.min_eq_left h]
  · rw [Nat.min_eq_right (Nat.le_of_not_le h)]
    rw [List.take_of_length_le (Nat.le_of_not_le h), List.take_length]

theorem take_append_take_drop_eq (F : List Msg) (L : Nat) :
    F.take L ++ (F.drop ((F.take L).length)).take L =
      F.take ((F.take L).length +
        ((F.drop ((F.take L).length)).take L).length) := by
  have key : ∀ n1 n2 : Nat, F.take L = F.take n1 →
      (F.drop n1).take L = (F.drop n1).take n2 →
      F.take L ++ (F.drop n1).take L = F.take (n1 + n2) := by
    intro n1 n2 e1 e2
    rw [List.take_add]
    exact congrArg₂ (· ++ ·) e1 e2
  apply key
  · rw [List.length_take, ← take_eq_take_length]
  · rw [List.length_take, List.length_take, ← take_eq_take_length]

theorem listMessages_items (msgs : List Msg) (cursor : Option (Nat × String))
    (lp : LimitParam) :
    (listMessages msgs cursor lp).items =
      (filterBefore msgs cursor).take (effLimit lp) := by
  show ((filterBefore msgs cursor).take (effLimit lp + 1)).take (effLimit lp) = _
  rw [List.take_take, Nat.min_eq_left (Nat.le_succ _)]

theorem sortedDesc_filterBefore (msgs : List Msg) (cursor : Option (Nat × String))
    (hs : SortedDesc msgs) : SortedDesc (filterBefore msgs cursor) := by
  cases cursor with
  | none => exact hs
  | some k => exact List.Pairwise.sublist (List.filter_sublist _) hs

/-- C8: keyset pagination.  For a table in strictly descending
(timestamp, id) order: (i) with a cursor, only rows strictly before it are
returned; (ii) `hasMore` is true exactly when rows remain beyond the returned
page; (iii) the next cursor is the key of the last row returned; (iv) the page
fetched through that next cursor is disjoint from the current page and the two
pages concatenate to a contiguous prefix of the cursor-filtered table (no
overlap, no gap). -/
theorem listMessages_keyset_pagination
    (msgs : List Msg) (cursor : Option (Nat × String)) (lp : LimitParam)
    (hs : SortedDesc msgs) :
    (∀ k, cursor = some k → ∀ m ∈ (listMessages msgs cursor lp).items,
        keyLt (msgKey m) k)
    ∧ ((listMessages msgs cursor lp).hasMore = true ↔
        (listMessages msgs cursor lp).items.length <
          (filterBefore msgs cursor).length)
    ∧ (listMessages msgs cursor lp).next =
        (listMessages msgs cursor lp).items.getLast?.map msgKey
    ∧ ∀ m0, (listMessages msgs cursor lp).items.getLast? = some m0 →
        (∀ m ∈ (listMessages msgs cursor lp).items,
          m ∉ (listMessages msgs (some (msgKey m0)) lp).items)
        ∧ (listMessages msgs cursor lp).items ++
            (listMessages msgs (some (msgKey m0)) lp).items =
          (filterBefore msgs cursor).take
            ((listMessages msgs cursor lp).items.length +
              (listMessages msgs (some (msgKey m0)) lp).items.length) := by
  refine ⟨?_, ?_, rfl, ?_⟩
  · intro k hk m hm
    rw [listMessages_items] at hm
    have hmF := List.take_subset _ _ hm
    rw [hk] at hmF
    have hmF2 : m ∈ msgs.filter (fun x => decide (keyLt (msgKey x) k)) := hmF
    exact of_decide_eq_true ((List.mem_filter.1 hmF2).2)
  · show decide (effLimit lp <
        ((filterBefore msgs cursor).take (effLimit lp + 1)).length) = true ↔ _
    rw [decide_eq_true_eq, listMessages_items, List.length_take, List.length_take]
    omega
  · intro m0 hm0
    have hFs : SortedDesc (filterBefore msgs cursor) :=
      sortedDesc_filterBefore msgs cursor hs
    rw [listMessages_items] at hm0
    obtain ⟨hget, hlen1⟩ :=
      take_getLast?_getElem (filterBefore msgs cursor) (effLimit lp) m0 hm0
    have hfilter : (filterBefore msgs cursor).filter
        (fun x => decide (keyLt (msgKey x) (msgKey m0))) =
        (filterBefore msgs cursor).drop
          (((filterBefore msgs cursor).take (effLimit lp)).length) := by
      have h1 := filter_keyLt_drop (filterBefore msgs cursor) hFs
        (((filterBefore msgs cursor).take (effLimit lp)).length - 1) m0 hget
      rwa [Nat.sub_add_cancel hlen1] at h1
    have hF2 : filterBefore msgs (some (msgKey m0)) =
        (filterBefore msgs cursor).drop
          (((filterBefore msgs cursor).take (effLimit lp)).length) := by
      cases cursor with
      | none => exact hfilter
      | some k =>
        have hm0F : m0 ∈ msgs.filter (fun x => decide (keyLt (msgKey x) k)) :=
          List.getElem?_mem hget
        have hm0k : keyLt (msgKey m0) k :=
          of_decide_eq_true ((List.mem_filter.1 hm0F).2)
        have himp : ∀ x : Msg, decide (keyLt (msgKey x) (msgKey m0)) = true →
            decide (keyLt (msgKey x) k) = true := by
          intro x hx
          exact decide_eq_true (keyLt_trans (of_decide_eq_true hx) hm0k)
        calc filterBefore msgs (some (msgKey m0))
            = msgs.filter (fun x => decide (keyLt (msgKey x) (msgKey m0))) := rfl
          _ = (msgs.filter (fun x => decide (keyLt (msgKey x) k))).filter
                (fun x => decide (keyLt (msgKey x) (msgKey m0))) :=
              filter_subsumed _ _ himp msgs
          _ = _ := hfilter
    have hitems2 : (listMessages msgs (some (msgKey m0)) lp).items =
        ((filterBefore msgs cursor).drop
          (((filterBefore msgs cursor).take (effLimit lp)).length)).take
            (effLimit lp) := by
      rw [listMessages_items, hF2]
    have htakeLL : (filterBefore msgs cursor).take (effLimit lp) =
        (filterBefore msgs cursor).take
          (((filterBefore msgs cursor).take (effLimit lp)).length) := by
      rw [List.length_take, ← take_eq_take_length]
    constructor
    · intro m hm hm2
      rw [listMessages_items] at hm
      rw [hitems2] at hm2
      have hmdrop := List.take_subset _ _ hm2
      rw [htakeLL] at hm
      have hsplit : SortedDesc
          ((filterBefore msgs cursor).take
              (((filterBefore msgs cursor).take (effLimit lp)).length) ++
            (filterBefore msgs cursor).drop
              (((filterBefore msgs cursor).take (effLimit lp)).length)) := by
        rw [List.take_append_drop]
        exact hFs
      have hpair := (List.pairwise_append.1 hsplit).2.2 m hm m hmdrop
      exact keyLt_irrefl _ hpair
    · rw [listMessages_items, hitems2]
      exact take_append_take_drop_eq (filterBefore msgs cursor) (effLimit lp)

/-- The five-message table used by the C8 witness, timestamps 5 down to 1. -/
def c8Msgs : List Msg :=
  [ { id := "m5", userSub := "auth0|a", byLabel := some "A", handle := "a",
      body := "five", mentions := [], createdAt := 5, page := none },
    { id := "m4", userSub := "auth0|a", byLabel := some "A", handle := "a",
      body := "four", mentions := [], createdAt := 4, page := none },
    { id := "m3", userSub := "auth0|b", byLabel := some "B", handle := "b",
      body := "three", mentions := [], createdAt := 3, page := none },
    { id := "m2", userSub := "auth0|b", byLabel := some "B", handle := "b",
      body := "two", mentions := [], createdAt := 2, page := none },
    { id := "m1", userSub := "auth0|c", byLabel := some "C", handle := "c",
      body := "one", mentions := [], createdAt := 1, page := none } ]

/-- C8 witness: the pagination properties instantiated on five concrete
messages with `limit = 2`. -/
theorem listMessages_keyset_pagination_witness :
    SortedDesc c8Msgs
    ∧ ((listMessages c8Msgs none (.int 2)).hasMore = true ↔
        (listMessages c8Msgs none (.int 2)).items.length <
          (filterBefore c8Msgs none).length)
    ∧ ∀ m0, (listMessages c8Msgs none (.int 2)).items.getLast? = some m0 →
        (∀ m ∈ (listMessages c8Msgs none (.int 2)).items,
          m ∉ (listMessages c8Msgs (some (msgKey m0)) (.int 2)).items)
        ∧ (listMessages c8Msgs none (.int 2)).items ++
            (listMessages c8Msgs (some (msgKey m0)) (.int 2)).items =
          (filterBefore c8Msgs none).take
            ((listMessages c8Msgs none (.int 2)).items.length +
              (listMessages c8Msgs (some (msgKey m0)) (.int 2)).items.length) :=
  ⟨by decide,
    (listMessages_keyset_pagination c8Msgs none (.int 2) (by decide)).2.1,
    (listMessages_keyset_pagination c8Msgs none (.int 2) (by decide)).2.2.2⟩

end LaunchOps
